import Mathlib

/-!
Verification of the RADStrat-Admin real-time speech-to-text client against
its specification.

The repository's core is the WebSocket session hook
(`apps/web/src/hooks/useTelemetry.ts`, `useSTTSession`) plus the server-side
token-mint routes (`apps/server/src/routes/webrtcSession.ts` and the mounted
GA router in `index.ts`).  This file gives a shallow embedding of the code
paths those claims concern:

* the `onaudioprocess` resample + PCM16 + base64 pipeline (`setupAudioCapture`);
* the readiness gate on audio sends;
* the `ws.onmessage` event dispatch (transcript deltas, turn-complete,
  error filtering);
* the `stopSession` transcript assembly / scoring / run-record logic;
* the fast-path promotion of a pre-connected session in `startSession`;
* the VAD configuration of the token-mint routes.

JavaScript `number` arithmetic is modelled exactly over `ℚ` (the claims under
scrutiny — output counts, value ranges, byte layout — are statements about the
exact arithmetic the spec describes).  `Math.round` is modelled as
`⌊x + 1/2⌋`, which is JavaScript's round-half-towards-positive-infinity.
-/

namespace RADStrat

/-! ### Resampling / PCM16 encoding (`setupAudioCapture`, lines 696–732) -/

/-- JavaScript `Math.round`: rounds half towards positive infinity. -/
def jsRound (x : ℚ) : ℤ := ⌊x + 1/2⌋

/-- The provider's fixed output rate (`TARGET_SAMPLE_RATE = 24000`). -/
def TARGET_SAMPLE_RATE : ℚ := 24000

/-- `const targetLength = Math.round(inputData.length * resampleRatio)`. -/
def targetLength (n : ℕ) (ratio : ℚ) : ℕ := (jsRound ((n : ℚ) * ratio)).toNat

/-- One output sample of the linear-interpolation resampler:
`srcIdx = i / resampleRatio`, floor/ceil neighbours with the ceil neighbour
clamped to the last input index, interpolated by the fractional offset. -/
def resampledSample (input : List ℚ) (ratio : ℚ) (i : ℕ) : ℚ :=
  let srcIdx : ℚ := (i : ℚ) / ratio
  let srcIdxFloor : ℤ := ⌊srcIdx⌋
  let srcIdxCeil : ℤ := min (srcIdxFloor + 1) ((input.length : ℤ) - 1)
  let t : ℚ := srcIdx - srcIdxFloor
  input.getD srcIdxFloor.toNat 0 * (1 - t) + input.getD srcIdxCeil.toNat 0 * t

/-- The resampling loop of `onaudioprocess`. -/
def resample (input : List ℚ) (ratio : ℚ) : List ℚ :=
  (List.range (targetLength input.length ratio)).map (resampledSample input ratio)

/-- `const s = Math.max(-1, Math.min(1, resampled[i]))`. -/
def clampUnit (x : ℚ) : ℚ := max (-1) (min 1 x)

/-- `const sample = s < 0 ? Math.round(s * 0x8000) : Math.round(s * 0x7FFF)`. -/
def pcm16OfSample (x : ℚ) : ℤ :=
  let s := clampUnit x
  if s < 0 then jsRound (s * 32768) else jsRound (s * 32767)

/-- `dataView.setInt16(i * 2, sample, true)`: the usual two's-complement
16-bit little-endian byte pair (low byte first). -/
def int16ToLEBytes (v : ℤ) : List ℕ :=
  let u := (v % 65536).toNat
  [u % 256, u / 256]

/-- The full audio-frame encoding step of `onaudioprocess`: resample to
24 kHz via linear interpolation, convert to signed 16-bit PCM, emit
little-endian bytes.  `inputRate` is the audio context's sample rate. -/
def encode (input : List ℚ) (inputRate : ℚ) : List ℕ :=
  ((resample input (TARGET_SAMPLE_RATE / inputRate)).map
    (fun x => int16ToLEBytes (pcm16OfSample x))).flatten

/-! ### Chunked byte → base64 transport encoding (`setupAudioCapture`, lines 724–732)

The hook builds a binary string from the PCM bytes in chunks of 8192
(`String.fromCharCode.apply` per chunk, concatenated) and feeds the result to
`btoa`.  A binary string is a sequence of character codes 0–255, so it is
modelled as `List ℕ`.  `btoa`/`atob` are browser primitives, modelled here by
the standard Base64 encoding (RFC 4648) they implement. -/

/-- `const chunkSize = 8192`. -/
def CHUNK_SIZE : ℕ := 8192

/-- The chunked loop `binaryString += String.fromCharCode.apply(null, chunk)`:
the byte buffer is split into chunks of `CHUNK_SIZE` whose character codes are
concatenated in order. -/
def buildBinaryString : List ℕ → List ℕ
  | [] => []
  | b :: rest =>
    (b :: rest).take CHUNK_SIZE ++ buildBinaryString ((b :: rest).drop CHUNK_SIZE)
termination_by l => l.length
decreasing_by simp [CHUNK_SIZE]; omega

/-- The standard Base64 alphabet. -/
def base64Alphabet : List Char :=
  "ABCDEFGHIJKLMNOPQRSTUVWXYZabcdefghijklmnopqrstuvwxyz0123456789+/".toList

/-- The Base64 digit for a 6-bit value. -/
def b64Char (n : ℕ) : Char := base64Alphabet.getD n 'A'

/-- The 6-bit value of a Base64 digit; any non-alphabet character (such as
the padding `=`) maps to the sentinel 64. -/
def b64Value (ch : Char) : ℕ := base64Alphabet.indexOf ch

/-- `btoa`: standard Base64 of a binary string, three bytes to four digits,
with `=` padding for a trailing group of one or two bytes. -/
def btoa : List ℕ → List Char
  | [] => []
  | [a] => [b64Char (a / 4), b64Char (a % 4 * 16), '=', '=']
  | [a, b] => [b64Char (a / 4), b64Char (a % 4 * 16 + b / 16), b64Char (b % 16 * 4), '=']
  | a :: b :: d :: rest =>
    b64Char (a / 4) :: b64Char (a % 4 * 16 + b / 16) :: b64Char (b % 16 * 4 + d / 64)
      :: b64Char (d % 64) :: btoa rest

/-- `atob` on digit values: four 6-bit values back to three bytes, with the
sentinel 64 (padding) terminating a final short group. -/
def atobVals : List ℕ → List ℕ
  | v1 :: v2 :: v3 :: v4 :: rest =>
    if 64 ≤ v3 then [v1 * 4 + v2 / 16]
    else if 64 ≤ v4 then [v1 * 4 + v2 / 16, v2 % 16 * 16 + v3 / 4]
    else (v1 * 4 + v2 / 16) :: (v2 % 16 * 16 + v3 / 4) :: (v3 % 4 * 64 + v4) :: atobVals rest
  | _ => []

/-- `atob`: decode a Base64 string back to its binary string. -/
def atob (s : List Char) : List ℕ := atobVals (s.map b64Value)

/-- The full chunked byte → base64 conversion of `onaudioprocess`. -/
def chunkedBase64 (bytes : List ℕ) : List Char := btoa (buildBinaryString bytes)

/-! ### Provider events (`startSession` `ws.onmessage`, lines 966–1056) -/

/-- Inbound WebSocket events, keyed by the `type` discriminator.  Payload
fields that JavaScript reads optionally (`event.delta`, `event.transcript`,
`event.error?.code`, `event.error?.message`) are `Option String`. -/
inductive WsEvent where
  | sessionCreated
  | sessionUpdated
  | committed
  | speechStarted
  | speechStopped
  | bufferCleared
  | itemCreated
  | delta (d : Option String)
  | completed (t : Option String)
  | errorEvent (code msg : Option String)
  | unhandled (tag : String)
deriving DecidableEq

/-- Session lifecycle states (`SessionStatus` in `useTelemetry.ts`). -/
inductive SessionStatus where
  | idle
  | connecting
  | connected
  | recording
  | processing
  | error
deriving DecidableEq

/-- The React state the `ws.onmessage` handler mutates: interim transcript,
final transcript, status and surfaced error. -/
structure HandlerState where
  interim : String
  final : String
  status : SessionStatus
  errorMsg : Option String
deriving DecidableEq

/-- The `switch (event.type)` dispatch of `startSession`'s message handler
(telemetry timestamps and logging omitted; they touch no transcript state).
JavaScript truthiness checks (`if (event.delta)`, `if (event.transcript)`,
`prev && event.transcript`) hold exactly for present, non-empty strings, and
the falsy fallback `event.error?.message || 'Unknown error'` substitutes the
default for an absent or empty message. -/
def handleEvent (st : HandlerState) : WsEvent → HandlerState
  | .delta d =>
    if d.getD "" ≠ "" then { st with interim := st.interim ++ d.getD "" } else st
  | .completed t =>
    let tr := t.getD ""
    if tr ≠ "" then
      let separator := if st.final ≠ "" ∧ tr ≠ "" then " " else ""
      { st with final := st.final ++ separator ++ tr, interim := "" }
    else st
  | .errorEvent code msg =>
    if code = some "input_audio_buffer_commit_empty" then st
    else
      { st with
        errorMsg := some (if msg.getD "" ≠ "" then msg.getD "" else "Unknown error")
        status := .error }
  | _ => st

/-! ### Readiness gate on audio sends (`onaudioprocess`, lines 661–670) -/

/-- The three flags the capture callback checks before sending:
`isRecordingRef`, `ws.readyState === OPEN`, `sessionReadyRef`. -/
structure CaptureFlags where
  isRecording : Bool
  wsOpen : Bool
  sessionReady : Bool
deriving DecidableEq

/-- One `onaudioprocess` invocation: returns the encoded audio frame sent,
or `none` when a guard fires (`return` before any send). -/
def onaudioprocessSend (st : CaptureFlags) (input : List ℚ) (inputRate : ℚ) :
    Option (List ℕ) :=
  if !st.isRecording || !st.wsOpen then none
  else if !st.sessionReady then none
  else some (encode input inputRate)

/-- One step of a session run: either a capture-callback tick or an inbound
provider event. -/
inductive SessionStep where
  | audioTick (input : List ℚ)
  | wsEvent (e : WsEvent)
deriving DecidableEq

/-- `sessionReadyRef` is set only by the `transcription_session.created`
event (both in `createWebSocketSession` and in the `preConnect` handler). -/
def stepReady (r : Bool) : WsEvent → Bool
  | .sessionCreated => true
  | _ => r

/-- A session run: capture ticks interleaved with inbound events, collecting
the audio frames actually sent. -/
def runCapture (inputRate : ℚ) (st : CaptureFlags) :
    List SessionStep → CaptureFlags × List (List ℕ)
  | [] => (st, [])
  | .audioTick input :: rest =>
    let r := runCapture inputRate st rest
    match onaudioprocessSend st input inputRate with
    | some frame => (r.1, frame :: r.2)
    | none => r
  | .wsEvent e :: rest =>
    runCapture inputRate { st with sessionReady := stepReady st.sessionReady e } rest

/-! ### `stopSession` (lines 1091–1199): transcript assembly, scoring,
run record -/

/-- JavaScript `String.prototype.trim`: strips leading and trailing
whitespace. -/
def jsTrim (s : String) : String :=
  ⟨((s.data.dropWhile Char.isWhitespace).reverse.dropWhile Char.isWhitespace).reverse⟩

/-- JavaScript `Array.prototype.join(' ')`. -/
def joinSpace : List String → String
  | [] => ""
  | [s] => s
  | s :: rest => s ++ " " ++ joinSpace rest

/-- `[finalTranscript, interimTranscript].filter(Boolean).join(' ').trim()`. -/
def assembleTranscript (finalT interimT : String) : String :=
  jsTrim (joinSpace (([finalT, interimT]).filter (fun s => !s.isEmpty)))

/-- Outcome of the external scoring collaborator (`scoreTranscript`): a score
on success, a thrown/propagated error message on failure. -/
inductive ScoreOutcome where
  | ok (overall : ℤ)
  | fail (msg : String)

/-- Run status as declared in `types/index.ts` (`'success' | 'timeout' |
'error'`). -/
inductive RunStatus where
  | success
  | timeout
  | error
deriving DecidableEq

/-- The run record handed to `onRunComplete`. -/
structure RunRecord where
  transcript : String
  status : RunStatus
  score : Option ℤ
deriving DecidableEq

/-- Observable outcome of `stopSession`: what was handed to the scorer, the
emitted run record, the surfaced error, the terminal status, and the React
`finalTranscript` state after the call (which `stopSession` never writes). -/
structure StopResult where
  scoredTranscript : Option String
  runRecord : Option RunRecord
  errorMsg : Option String
  finalStatus : SessionStatus
  finalTranscriptState : String
deriving DecidableEq

/-- `stopSession` after the settle interval: assemble the transcript; if it
is non-empty, call the scoring collaborator, emitting a success run record or
surfacing the failure; finally set status `idle`.  The empty-transcript
branch skips scoring entirely and emits nothing. -/
def stopSession (finalT interimT : String) (scorer : String → ScoreOutcome) :
    StopResult :=
  let transcript := assembleTranscript finalT interimT
  if transcript ≠ "" then
    match scorer transcript with
    | .ok overall =>
      { scoredTranscript := some transcript
        runRecord := some { transcript := transcript, status := .success, score := some overall }
        errorMsg := none
        finalStatus := .idle
        finalTranscriptState := finalT }
    | .fail m =>
      { scoredTranscript := some transcript
        runRecord := none
        errorMsg := some m
        finalStatus := .idle
        finalTranscriptState := finalT }
  else
    { scoredTranscript := none
      runRecord := none
      errorMsg := none
      finalStatus := .idle
      finalTranscriptState := finalT }

/-! ### Fast-path promotion of a pre-connected session (`startSession`,
lines 914–938) -/

/-- The mutable reference cells of the hook that promotion touches.
Connections and streams are identified by handles (`ℕ`). -/
structure SessionRefs where
  wsRef : Option ℕ
  mediaStreamRef : Option ℕ
  preConnectedWsRef : Option ℕ
  preConnectedStreamRef : Option ℕ
  preConnectedRef : Bool
  status : SessionStatus
deriving DecidableEq

/-- The fast path of `startSession`: transfer the standby connection and
stream to the active refs, null the pool refs, clear the pool's ready flag,
and enter `connected`. -/
def promoteFastPath (st : SessionRefs) : SessionRefs :=
  { st with
    wsRef := st.preConnectedWsRef
    mediaStreamRef := st.preConnectedStreamRef
    preConnectedWsRef := none
    preConnectedStreamRef := none
    preConnectedRef := false
    status := .connected }

/-- The pool holds a ready standby connection. -/
def poolHoldsReady (st : SessionRefs) : Prop :=
  st.preConnectedRef = true ∧ st.preConnectedWsRef.isSome = true

/-- The active session holds a connection. -/
def activeHolds (st : SessionRefs) : Prop := st.wsRef.isSome = true

/-! ### Token-mint routes (`webrtcSession.ts`, `index.ts`) -/

/-- `turn_detection` configuration sent in the provider's session-creation
call. -/
structure TurnDetection where
  threshold : ℚ
  prefixPaddingMs : ℤ
  silenceDurationMs : ℤ
deriving DecidableEq

/-- `DEFAULT_VAD` of the legacy POST route (webrtcSession.ts lines 24–28). -/
def DEFAULT_VAD : TurnDetection :=
  { threshold := 3/10, prefixPaddingMs := 500, silenceDurationMs := 2000 }

/-- Optional VAD tuning parameters of the legacy POST route's request body. -/
structure VADSettingsRequest where
  threshold : Option ℚ
  prefixPaddingMs : Option ℤ
  silenceDurationMs : Option ℤ

/-- The legacy POST handler's `turn_detection`: each field from the request
body when present, else the `DEFAULT_VAD` value (`vadRequest.threshold ??
DEFAULT_VAD.threshold`, etc.). -/
def legacyMintTurnDetection (body : Option VADSettingsRequest) : TurnDetection :=
  let r := body.getD { threshold := none, prefixPaddingMs := none, silenceDurationMs := none }
  { threshold := r.threshold.getD DEFAULT_VAD.threshold
    prefixPaddingMs := r.prefixPaddingMs.getD DEFAULT_VAD.prefixPaddingMs
    silenceDurationMs := r.silenceDurationMs.getD DEFAULT_VAD.silenceDurationMs }

/-- The GA GET handler's hardcoded `turn_detection` (threshold 0.5,
prefix_padding_ms 300, silence_duration_ms 500). -/
def gaMintTurnDetection : TurnDetection :=
  { threshold := 1/2, prefixPaddingMs := 300, silenceDurationMs := 500 }

/-- HTTP method of a request to `/api/webrtc/session`. -/
inductive HttpMethod where
  | get
  | post
deriving DecidableEq

/-- The mounted token-mint route: `index.ts` wires `/api/webrtc/session` to
the GA transcription-session router ("replaces legacy webrtcSessionRouter"),
which serves only GET, reads no request parameters, and always sends the
hardcoded GA `turn_detection`; no POST handler is mounted there. -/
def mintSessionTurnDetection : HttpMethod → Option VADSettingsRequest → Option TurnDetection
  | .get, _ => some gaMintTurnDetection
  | .post, _ => none

/-! ## Theorems -/

/-- Delta events never touch the final transcript. -/
lemma handleEvent_delta_final (st : HandlerState) (d : Option String) :
    (handleEvent st (.delta d)).final = st.final := by
  simp only [handleEvent]
  split <;> rfl

/-- A run of delta events leaves the final transcript unchanged. -/
lemma foldl_delta_final (ds : List (Option String)) (st : HandlerState) :
    (ds.foldl (fun s d => handleEvent s (.delta d)) st).final = st.final := by
  induction ds generalizing st with
  | nil => rfl
  | cons d ds ih =>
    rw [List.foldl_cons, ih, handleEvent_delta_final]

/-- C3: after any sequence of transcript-delta events followed by a
turn-complete event carrying transcript text `T`, the final transcript is the
previous final transcript, a single separating space (only when the previous
final transcript is non-empty), then `T` — taken from the complete event's
payload, independently of the deltas — and the interim transcript is
cleared. -/
theorem completed_event_appends_payload (st : HandlerState)
    (ds : List (Option String)) (T : String) (hT : T ≠ "") :
    (handleEvent (ds.foldl (fun s d => handleEvent s (.delta d)) st)
        (.completed (some T))).final
      = st.final ++ (if st.final = "" then "" else " ") ++ T
    ∧ (handleEvent (ds.foldl (fun s d => handleEvent s (.delta d)) st)
        (.completed (some T))).interim = "" := by
  have hfin := foldl_delta_final ds st
  set mid := ds.foldl (fun s d => handleEvent s (.delta d)) st with hmid
  simp only [handleEvent, Option.getD_some]
  rw [if_pos hT]
  dsimp only
  rw [hfin]
  refine ⟨?_, rfl⟩
  by_cases h : st.final = "" <;> simp [h, hT]

/-- Witness for C3 at a concrete run: two deltas and an absent delta, then a
turn-complete event with payload `"hello"` appended to prior final transcript
`"prev"`. -/
theorem completed_event_appends_payload_witness :
    ("hello" : String) ≠ ""
    ∧ (handleEvent ([some "a", none, some "b"].foldl
          (fun s d => handleEvent s (.delta d))
          ⟨"partial", "prev", .recording, none⟩)
        (.completed (some "hello"))).final = "prev hello"
    ∧ (handleEvent ([some "a", none, some "b"].foldl
          (fun s d => handleEvent s (.delta d))
          ⟨"partial", "prev", .recording, none⟩)
        (.completed (some "hello"))).interim = "" := by
  have h := completed_event_appends_payload ⟨"partial", "prev", .recording, none⟩
    [some "a", none, some "b"] "hello" (by decide)
  refine ⟨by decide, ?_, h.2⟩
  rw [h.1]
  decide

/-- C4: an inbound error event with the benign empty-buffer-commit code is
ignored — the handler state is unchanged, in particular status and surfaced
error; any other code sets status `error` and surfaces the event's message
(the falsy fallback substituting "Unknown error" when the message is absent
or empty). -/
theorem error_event_filtering (st : HandlerState) (code msg : Option String) :
    (code = some "input_audio_buffer_commit_empty" →
      handleEvent st (.errorEvent code msg) = st)
    ∧ (code ≠ some "input_audio_buffer_commit_empty" →
      (handleEvent st (.errorEvent code msg)).status = .error
      ∧ (msg.getD "" ≠ "" →
          (handleEvent st (.errorEvent code msg)).errorMsg = msg)
      ∧ (msg.getD "" = "" →
          (handleEvent st (.errorEvent code msg)).errorMsg = some "Unknown error")) := by
  constructor
  · intro h
    simp [handleEvent, h]
  · intro h
    refine ⟨by simp [handleEvent, h], ?_, ?_⟩
    · intro hm
      cases msg with
      | none => simp at hm
      | some m =>
        have hm' : m ≠ "" := by simpa using hm
        simp [handleEvent, h, hm']
    · intro hm
      simp [handleEvent, h, hm]

/-- Witness for C4: the benign code leaves a recording-state handler
untouched; a non-benign code moves it to `error` with the message surfaced,
and a present-but-empty message surfaces the "Unknown error" fallback. -/
theorem error_event_filtering_witness :
    handleEvent ⟨"", "t", .recording, none⟩
        (.errorEvent (some "input_audio_buffer_commit_empty") (some "buffer too small")) =
      ⟨"", "t", .recording, none⟩
    ∧ (handleEvent ⟨"", "t", .recording, none⟩
        (.errorEvent (some "server_error") (some "boom"))).status = .error
    ∧ (handleEvent ⟨"", "t", .recording, none⟩
        (.errorEvent (some "server_error") (some "boom"))).errorMsg = some "boom"
    ∧ (handleEvent ⟨"", "t", .recording, none⟩
        (.errorEvent (some "server_error") (some ""))).errorMsg = some "Unknown error" := by
  refine ⟨(error_event_filtering _ _ _).1 rfl, ?_, ?_, ?_⟩
  · exact ((error_event_filtering _ _ _).2 (by decide)).1
  · exact ((error_event_filtering ⟨"", "t", .recording, none⟩
      (some "server_error") (some "boom")).2 (by decide)).2.1 (by decide)
  · exact ((error_event_filtering ⟨"", "t", .recording, none⟩
      (some "server_error") (some "")).2 (by decide)).2.2 (by decide)

/-- A capture callback sends nothing while any guard flag is down. -/
lemma onaudioprocessSend_guard (fl : CaptureFlags) (input : List ℚ) (inputRate : ℚ)
    (h : fl.sessionReady = false ∨ fl.isRecording = false ∨ fl.wsOpen = false) :
    onaudioprocessSend fl input inputRate = none := by
  unfold onaudioprocessSend
  rcases h with h | h | h <;> rw [h] <;> simp

/-- Only the readiness event flips the readiness flag. -/
lemma stepReady_of_ne (r : Bool) (e : WsEvent) (he : e ≠ .sessionCreated) :
    stepReady r e = r := by
  cases e <;> simp_all [stepReady]

/-- C2: the readiness flag gates every audio send — a capture callback with
the readiness flag down (or recording flag down, or socket not open) sends
nothing, and a whole run whose steps never include the readiness event sends
zero audio frames. -/
theorem no_audio_before_ready (inputRate : ℚ) (st : CaptureFlags)
    (steps : List SessionStep)
    (h0 : st.sessionReady = false)
    (hnr : ∀ s ∈ steps, s ≠ SessionStep.wsEvent .sessionCreated) :
    (runCapture inputRate st steps).2 = []
    ∧ ∀ (fl : CaptureFlags) (input : List ℚ),
        (fl.sessionReady = false ∨ fl.isRecording = false ∨ fl.wsOpen = false) →
        onaudioprocessSend fl input inputRate = none := by
  refine ⟨?_, fun fl input h => onaudioprocessSend_guard fl input inputRate h⟩
  induction steps generalizing st with
  | nil => rfl
  | cons s rest ih =>
    cases s with
    | audioTick input =>
      have hsend := onaudioprocessSend_guard st input inputRate (Or.inl h0)
      have hrest := ih st h0 (fun s hs => hnr s (List.mem_cons_of_mem _ hs))
      simp only [runCapture, hsend]
      exact hrest
    | wsEvent e =>
      have he : e ≠ WsEvent.sessionCreated := by
        intro hcontra
        exact hnr _ (List.mem_cons_self _ _) (by rw [hcontra])
      simp only [runCapture, stepReady_of_ne _ _ he]
      exact ih { st with sessionReady := st.sessionReady } (by simpa using h0)
        (fun s hs => hnr s (List.mem_cons_of_mem _ hs))

/-- Witness for C2: a run with two capture ticks and a speech-started event
but no readiness event sends no frames. -/
theorem no_audio_before_ready_witness :
    (⟨true, true, false⟩ : CaptureFlags).sessionReady = false
    ∧ (∀ s ∈ ([.audioTick [0], .wsEvent .speechStarted, .audioTick [0]] :
          List SessionStep), s ≠ SessionStep.wsEvent .sessionCreated)
    ∧ (runCapture 48000 ⟨true, true, false⟩
        [.audioTick [0], .wsEvent .speechStarted, .audioTick [0]]).2 = [] :=
  ⟨rfl, by decide,
    (no_audio_before_ready 48000 ⟨true, true, false⟩
      [.audioTick [0], .wsEvent .speechStarted, .audioTick [0]] rfl (by decide)).1⟩

/-- C6: promoting the pre-connected standby session is a transfer — after
the fast path, the active refs hold exactly the previous standby connection
and stream, the pool refs are null, the pool ready flag is false, and the
pool and active handles are not both held. -/
theorem promotion_transfers_connection (st : SessionRefs) (conn stream : ℕ)
    (hpre : st.preConnectedRef = true)
    (hws : st.preConnectedWsRef = some conn)
    (hstream : st.preConnectedStreamRef = some stream) :
    (promoteFastPath st).wsRef = some conn
    ∧ (promoteFastPath st).mediaStreamRef = some stream
    ∧ (promoteFastPath st).preConnectedWsRef = none
    ∧ (promoteFastPath st).preConnectedStreamRef = none
    ∧ (promoteFastPath st).preConnectedRef = false
    ∧ ¬(poolHoldsReady (promoteFastPath st) ∧ activeHolds (promoteFastPath st)) := by
  simp [promoteFastPath, poolHoldsReady, activeHolds, hws, hstream]

/-- Witness for C6 at a concrete standby state holding connection 7 and
stream 3. -/
theorem promotion_transfers_connection_witness :
    (promoteFastPath ⟨none, none, some 7, some 3, true, .idle⟩).wsRef = some 7
    ∧ (promoteFastPath ⟨none, none, some 7, some 3, true, .idle⟩).preConnectedWsRef = none
    ∧ (promoteFastPath ⟨none, none, some 7, some 3, true, .idle⟩).preConnectedRef = false :=
  ⟨(promotion_transfers_connection ⟨none, none, some 7, some 3, true, .idle⟩ 7 3
      rfl rfl rfl).1,
   (promotion_transfers_connection ⟨none, none, some 7, some 3, true, .idle⟩ 7 3
      rfl rfl rfl).2.2.1,
   (promotion_transfers_connection ⟨none, none, some 7, some 3, true, .idle⟩ 7 3
      rfl rfl rfl).2.2.2.2.1⟩

/-- Counterexample to C7: the mounted token-mint route (the GA GET handler
that `index.ts` wires to `/api/webrtc/session`, the route the client's token
fetch hits) creates the session with the hardcoded turn detection 0.5 / 300 /
500, not the documented defaults 0.3 / 500 / 2000, even when no tuning
parameters are supplied. -/
theorem mint_defaults_counterexample :
    mintSessionTurnDetection .get none = some gaMintTurnDetection
    ∧ gaMintTurnDetection.threshold ≠ DEFAULT_VAD.threshold
    ∧ gaMintTurnDetection.prefixPaddingMs ≠ DEFAULT_VAD.prefixPaddingMs
    ∧ gaMintTurnDetection.silenceDurationMs ≠ DEFAULT_VAD.silenceDurationMs := by
  refine ⟨rfl, ?_, ?_, ?_⟩ <;> norm_num [gaMintTurnDetection, DEFAULT_VAD]

/-- Amended C7: the mounted GA route always creates the session with the
hardcoded turn detection and accepts no parameters (no POST handler is
mounted); only the unmounted legacy POST handler applies the defaults 0.3 /
500 / 2000 when the optional parameters are omitted and the supplied values
when present. -/
theorem mint_vad_configuration (body : Option VADSettingsRequest)
    (t : ℚ) (p sdm : ℤ) :
    mintSessionTurnDetection .get body = some gaMintTurnDetection
    ∧ mintSessionTurnDetection .post body = none
    ∧ legacyMintTurnDetection none = DEFAULT_VAD
    ∧ legacyMintTurnDetection (some ⟨some t, some p, some sdm⟩) =
        ⟨t, p, sdm⟩ := by
  exact ⟨rfl, rfl, rfl, rfl⟩

/-- Counterexample to C5: stopping with zero transcript text produces NO run
record at all — the claimed empty-transcript-status record does not exist (the
run status type has only success / timeout / error); scoring is indeed
skipped and the state ends idle. -/
theorem empty_transcript_no_run_record :
    (stopSession "" "" (fun _ => .ok 0)).runRecord = none
    ∧ (stopSession "" "" (fun _ => .ok 0)).scoredTranscript = none
    ∧ (stopSession "" "" (fun _ => .ok 0)).finalStatus = .idle := by
  decide

/-- Amended C5: when stop is invoked and the assembled transcript is empty,
the scoring collaborator is never called, no run record is produced, and the
session ends idle. -/
theorem empty_transcript_skips_scoring (finalT interimT : String)
    (scorer : String → ScoreOutcome)
    (h : assembleTranscript finalT interimT = "") :
    (stopSession finalT interimT scorer).scoredTranscript = none
    ∧ (stopSession finalT interimT scorer).runRecord = none
    ∧ (stopSession finalT interimT scorer).finalStatus = .idle := by
  simp [stopSession, h]

/-- Witness for the amended C5 with a scorer that would fail if it were ever
consulted. -/
theorem empty_transcript_skips_scoring_witness :
    assembleTranscript "" "" = ""
    ∧ (stopSession "" "" (fun _ => .fail "never called")).scoredTranscript = none
    ∧ (stopSession "" "" (fun _ => .fail "never called")).runRecord = none
    ∧ (stopSession "" "" (fun _ => .fail "never called")).finalStatus = .idle :=
  ⟨by decide,
   (empty_transcript_skips_scoring "" "" (fun _ => .fail "never called") (by decide)).1,
   (empty_transcript_skips_scoring "" "" (fun _ => .fail "never called") (by decide)).2.1,
   (empty_transcript_skips_scoring "" "" (fun _ => .fail "never called") (by decide)).2.2⟩

/-- C8: when the scoring call fails during processing, the failure message is
surfaced, the session still reaches idle, and the accumulated final
transcript state is left unchanged. -/
theorem scoring_failure_preserves_transcript (finalT interimT : String)
    (scorer : String → ScoreOutcome) (m : String)
    (hne : assembleTranscript finalT interimT ≠ "")
    (hfail : scorer (assembleTranscript finalT interimT) = .fail m) :
    (stopSession finalT interimT scorer).errorMsg = some m
    ∧ (stopSession finalT interimT scorer).finalStatus = .idle
    ∧ (stopSession finalT interimT scorer).finalTranscriptState = finalT := by
  simp [stopSession, hne, hfail]

/-- Witness for C8: a failing scorer surfaces its message, returns to idle,
and keeps the final transcript "alpha". -/
theorem scoring_failure_preserves_transcript_witness :
    assembleTranscript "alpha" "" ≠ ""
    ∧ (stopSession "alpha" "" (fun _ => .fail "scoring unavailable")).errorMsg
        = some "scoring unavailable"
    ∧ (stopSession "alpha" "" (fun _ => .fail "scoring unavailable")).finalStatus = .idle
    ∧ (stopSession "alpha" "" (fun _ => .fail "scoring unavailable")).finalTranscriptState
        = "alpha" :=
  ⟨by decide,
   (scoring_failure_preserves_transcript "alpha" "" (fun _ => .fail "scoring unavailable")
      "scoring unavailable" (by decide) rfl).1,
   (scoring_failure_preserves_transcript "alpha" "" (fun _ => .fail "scoring unavailable")
      "scoring unavailable" (by decide) rfl).2.1,
   (scoring_failure_preserves_transcript "alpha" "" (fun _ => .fail "scoring unavailable")
      "scoring unavailable" (by decide) rfl).2.2⟩

/-- Counterexample to C9: with residual interim text "world" at stop time,
the transcript handed to the scoring collaborator is "hello world", not the
accumulated final transcript "hello". -/
theorem scored_transcript_includes_interim :
    (stopSession "hello" "world" (fun _ => .ok 50)).scoredTranscript
      = some "hello world"
    ∧ (stopSession "hello" "world" (fun _ => .ok 50)).finalTranscriptState = "hello"
    ∧ ("hello world" : String) ≠ "hello" := by
  decide

/-- Amended C9: the transcript handed to the scoring collaborator is the
trimmed space-join of the non-empty components [final, interim]; it equals
the accumulated final transcript exactly in the case that no interim text
remains and the final transcript is trim-stable. -/
theorem scored_transcript_assembly (finalT interimT : String)
    (scorer : String → ScoreOutcome)
    (hne : assembleTranscript finalT interimT ≠ "") :
    (stopSession finalT interimT scorer).scoredTranscript
      = some (assembleTranscript finalT interimT)
    ∧ (interimT = "" → jsTrim finalT = finalT →
        (stopSession finalT interimT scorer).scoredTranscript = some finalT) := by
  have h1 : (stopSession finalT interimT scorer).scoredTranscript
      = some (assembleTranscript finalT interimT) := by
    unfold stopSession
    rw [if_pos hne]
    cases hsc : scorer (assembleTranscript finalT interimT) <;> rfl
  refine ⟨h1, fun hi htrim => ?_⟩
  subst hi
  have hfne : finalT ≠ "" := by
    intro hf
    subst hf
    exact hne (by decide)
  have hassemble : assembleTranscript finalT "" = finalT := by
    unfold assembleTranscript
    have hf : (!finalT.isEmpty) = true := by
      simp only [Bool.not_eq_true']
      exact Bool.eq_false_iff.mpr (fun hc => hfne ((String.isEmpty_iff finalT).mp hc))
    simp [List.filter_cons, hf, joinSpace, htrim]
  rw [h1, hassemble]

/-- Witness for the amended C9: with empty interim and trim-stable final
transcript "hello", exactly "hello" is handed to the scorer. -/
theorem scored_transcript_assembly_witness :
    assembleTranscript "hello" "" ≠ ""
    ∧ (stopSession "hello" "" (fun _ => .ok 10)).scoredTranscript = some "hello" :=
  ⟨by decide,
   (scored_transcript_assembly "hello" "" (fun _ => .ok 10) (by decide)).2 rfl (by decide)⟩

/-- The Base64 digit map is injectively inverted by the value map on 6-bit
values. -/
lemma b64Value_b64Char : ∀ n < 64, b64Value (b64Char n) = n := by
  decide

/-- The padding character carries the sentinel value 64. -/
lemma b64Value_pad : b64Value (Char.ofNat 61) = 64 := by
  decide

/-- Decoding inverts encoding on any byte list. -/
theorem atobVals_btoa (l : List ℕ) (h : ∀ x ∈ l, x < 256) :
    atobVals ((btoa l).map b64Value) = l := by
  match l with
  | [] => rfl
  | [a] =>
    have ha : a < 256 := h a (by simp)
    simp only [btoa, List.map_cons, List.map_nil]
    rw [b64Value_b64Char (a / 4) (by omega), b64Value_b64Char (a % 4 * 16) (by omega)]
    show atobVals [a / 4, a % 4 * 16, b64Value '=', b64Value '='] = [a]
    rw [show b64Value (Char.ofNat 61) = 64 from b64Value_pad]
    simp only [atobVals]
    rw [if_pos (by omega)]
    congr 1
    omega
  | [a, b] =>
    have ha : a < 256 := h a (by simp)
    have hb : b < 256 := h b (by simp)
    simp only [btoa, List.map_cons, List.map_nil]
    rw [b64Value_b64Char (a / 4) (by omega),
      b64Value_b64Char (a % 4 * 16 + b / 16) (by omega),
      b64Value_b64Char (b % 16 * 4) (by omega)]
    show atobVals [a / 4, a % 4 * 16 + b / 16, b % 16 * 4, b64Value '='] = [a, b]
    rw [show b64Value (Char.ofNat 61) = 64 from b64Value_pad]
    simp only [atobVals]
    rw [if_neg (by omega), if_pos (by omega)]
    congr 1
    · omega
    · congr 1
      omega
  | a :: b :: d :: e :: rest =>
    have ha : a < 256 := h a (by simp)
    have hb : b < 256 := h b (by simp)
    have hd : d < 256 := h d (by simp)
    have ih := atobVals_btoa (e :: rest) (fun x hx => h x (by simp at hx ⊢; tauto))
    simp only [btoa, List.map_cons]
    rw [b64Value_b64Char (a / 4) (by omega),
      b64Value_b64Char (a % 4 * 16 + b / 16) (by omega),
      b64Value_b64Char (b % 16 * 4 + d / 64) (by omega),
      b64Value_b64Char (d % 64) (by omega)]
    simp only [atobVals]
    rw [if_neg (by omega), if_neg (by omega)]
    rw [ih]
    congr 1
    · omega
    · congr 1
      · omega
      · congr 1
        omega
  | [a, b, d] =>
    have ha : a < 256 := h a (by simp)
    have hb : b < 256 := h b (by simp)
    have hd : d < 256 := h d (by simp)
    simp only [btoa, List.map_cons, List.map_nil]
    rw [b64Value_b64Char (a / 4) (by omega),
      b64Value_b64Char (a % 4 * 16 + b / 16) (by omega),
      b64Value_b64Char (b % 16 * 4 + d / 64) (by omega),
      b64Value_b64Char (d % 64) (by omega)]
    simp only [atobVals]
    rw [if_neg (by omega), if_neg (by omega)]
    congr 1
    · omega
    · congr 1
      · omega
      · congr 1
        omega

/-- The chunked concatenation rebuilds exactly the original byte sequence. -/
lemma buildBinaryString_eq (l : List ℕ) : buildBinaryString l = l := by
  match l with
  | [] => rw [buildBinaryString]
  | b :: rest =>
    rw [buildBinaryString, buildBinaryString_eq ((b :: rest).drop CHUNK_SIZE)]
    exact List.take_append_drop _ _
termination_by l.length
decreasing_by simp [CHUNK_SIZE]; omega

/-- C10: the chunked byte → base64 conversion is a faithful transport
encoding — decoding the produced base64 recovers exactly the original byte
sequence, and the chunked conversion coincides with a single unchunked
conversion. -/
theorem chunked_base64_faithful (bytes : List ℕ) (h : ∀ x ∈ bytes, x < 256) :
    atob (chunkedBase64 bytes) = bytes
    ∧ chunkedBase64 bytes = btoa bytes := by
  constructor
  · rw [chunkedBase64, buildBinaryString_eq]
    exact atobVals_btoa bytes h
  · rw [chunkedBase64, buildBinaryString_eq]

/-- Witness for C10 on a concrete five-byte PCM buffer (a non-multiple of
three, exercising the padded tail). -/
theorem chunked_base64_faithful_witness :
    (∀ x ∈ ([0, 255, 16, 130, 7] : List ℕ), x < 256)
    ∧ atob (chunkedBase64 [0, 255, 16, 130, 7]) = [0, 255, 16, 130, 7]
    ∧ chunkedBase64 [0, 255, 16, 130, 7] = btoa [0, 255, 16, 130, 7] :=
  ⟨by decide,
   (chunked_base64_faithful [0, 255, 16, 130, 7] (by decide)).1,
   (chunked_base64_faithful [0, 255, 16, 130, 7] (by decide)).2⟩

/-- Every emitted PCM16 sample is at least -32768. -/
lemma pcm16OfSample_lower (x : ℚ) : -32768 ≤ pcm16OfSample x := by
  simp only [pcm16OfSample, clampUnit, jsRound]
  have hs1 : (-1 : ℚ) ≤ max (-1) (min 1 x) := le_max_left _ _
  split
  next h =>
    refine Int.le_floor.mpr ?_
    push_cast
    linarith
  next h =>
    push_neg at h
    refine Int.le_floor.mpr ?_
    push_cast
    linarith

/-- Every emitted PCM16 sample is at most 32767. -/
lemma pcm16OfSample_upper (x : ℚ) : pcm16OfSample x ≤ 32767 := by
  simp only [pcm16OfSample, clampUnit, jsRound]
  have hs2 : max (-1 : ℚ) (min 1 x) ≤ 1 := max_le (by norm_num) (min_le_left _ _)
  split
  next h =>
    have h2 : ⌊max (-1 : ℚ) (min 1 x) * 32768 + 1/2⌋ < 32768 := by
      refine Int.floor_lt.mpr ?_
      push_cast
      linarith
    omega
  next h =>
    push_neg at h
    have h2 : ⌊max (-1 : ℚ) (min 1 x) * 32767 + 1/2⌋ < 32768 := by
      refine Int.floor_lt.mpr ?_
      push_cast
      linarith
    omega

/-- The encoded frame has two bytes per resampled sample. -/
lemma encode_length (input : List ℚ) (inputRate : ℚ) :
    (encode input inputRate).length
      = 2 * targetLength input.length (TARGET_SAMPLE_RATE / inputRate) := by
  unfold encode
  have hpairs : ∀ (l : List ℚ),
      ((l.map (fun x => int16ToLEBytes (pcm16OfSample x))).flatten).length
        = 2 * l.length := by
    intro l
    induction l with
    | nil => rfl
    | cons a t ih =>
      simp only [List.map_cons, List.flatten_cons, List.length_append, ih,
        List.length_cons]
      have hhead : (int16ToLEBytes (pcm16OfSample a)).length = 2 := rfl
      omega
  rw [hpairs]
  simp [resample]

/-- Byte extraction from the flattened little-endian pair list. -/
lemma flatten_pairs_getD (l : List ℚ) (i : ℕ) (hi : i < l.length) :
    ((l.map (fun x => int16ToLEBytes (pcm16OfSample x))).flatten).getD (2*i) 0
      = (pcm16OfSample (l.getD i 0) % 65536).toNat % 256
    ∧ ((l.map (fun x => int16ToLEBytes (pcm16OfSample x))).flatten).getD (2*i+1) 0
      = (pcm16OfSample (l.getD i 0) % 65536).toNat / 256 := by
  induction l generalizing i with
  | nil => simp at hi
  | cons a t ih =>
    cases i with
    | zero => simp [int16ToLEBytes]
    | succ j =>
      have hj : j < t.length := by simpa using hi
      have hrec := ih j hj
      simp only [List.map_cons, List.flatten_cons, int16ToLEBytes,
        List.getD_cons_succ, List.cons_append, List.nil_append]
      rw [show 2 * (j + 1) = (2 * j + 1) + 1 by ring]
      simpa [List.getD_cons_succ] using hrec

/-- The `i`-th resampled sample, read back from the resampled list. -/
lemma resample_getD (input : List ℚ) (ratio : ℚ) (i : ℕ)
    (hi : i < targetLength input.length ratio) :
    (resample input ratio).getD i 0 = resampledSample input ratio i := by
  unfold resample
  rw [List.getD_eq_getElem _ _ (by simpa using hi)]
  simp

/-- C1: for every input buffer of `N` samples at positive input rate `R`,
the encoding step emits exactly `round(N · 24000/R)` output samples — two
little-endian bytes each, so `2·round(N·24000/R)` bytes — where output sample
`i` interpolates the floor/ceil input neighbours at source position
`i/(24000/R)` (floor neighbour in bounds, ceil neighbour clamped to the last
input index), and every emitted 16-bit value lies in [-32768, 32767]. -/
theorem encode_resample_spec (input : List ℚ) (R : ℚ) (hR : 0 < R) :
    (encode input R).length = 2 * targetLength input.length (TARGET_SAMPLE_RATE / R)
    ∧ ∀ i, i < targetLength input.length (TARGET_SAMPLE_RATE / R) →
        (⌊(i : ℚ) / (TARGET_SAMPLE_RATE / R)⌋).toNat < input.length
        ∧ resampledSample input (TARGET_SAMPLE_RATE / R) i
            = input.getD (⌊(i : ℚ) / (TARGET_SAMPLE_RATE / R)⌋).toNat 0
                * (1 - ((i : ℚ) / (TARGET_SAMPLE_RATE / R)
                    - ⌊(i : ℚ) / (TARGET_SAMPLE_RATE / R)⌋))
              + input.getD
                  (min ((⌊(i : ℚ) / (TARGET_SAMPLE_RATE / R)⌋).toNat + 1)
                    (input.length - 1)) 0
                * ((i : ℚ) / (TARGET_SAMPLE_RATE / R)
                    - ⌊(i : ℚ) / (TARGET_SAMPLE_RATE / R)⌋)
        ∧ -32768 ≤ pcm16OfSample (resampledSample input (TARGET_SAMPLE_RATE / R) i)
        ∧ pcm16OfSample (resampledSample input (TARGET_SAMPLE_RATE / R) i) ≤ 32767
        ∧ (encode input R).getD (2*i) 0
            = (pcm16OfSample (resampledSample input (TARGET_SAMPLE_RATE / R) i)
                % 65536).toNat % 256
        ∧ (encode input R).getD (2*i+1) 0
            = (pcm16OfSample (resampledSample input (TARGET_SAMPLE_RATE / R) i)
                % 65536).toNat / 256 := by
  have hratio : (0:ℚ) < TARGET_SAMPLE_RATE / R :=
    div_pos (by norm_num [TARGET_SAMPLE_RATE]) hR
  refine ⟨encode_length input R, ?_⟩
  intro i hi
  set ratio : ℚ := TARGET_SAMPLE_RATE / R with hra
  -- the output index range is empty for an empty input buffer
  have hN : 1 ≤ input.length := by
    by_contra hc
    push_neg at hc
    have h0 : input.length = 0 := by omega
    rw [h0] at hi
    have hz : targetLength 0 ratio = 0 := by
      simp [targetLength, jsRound]
      norm_num
    omega
  have hsrc0 : (0:ℚ) ≤ (i:ℚ) / ratio := by positivity
  have hfl0 : 0 ≤ ⌊(i:ℚ) / ratio⌋ := Int.floor_nonneg.mpr hsrc0
  -- the floor neighbour is a valid index
  have hiM : (i : ℤ) < jsRound ((input.length : ℚ) * ratio) := by
    have hx := hi
    unfold targetLength at hx
    omega
  have hle : (jsRound ((input.length : ℚ) * ratio) : ℚ)
      ≤ (input.length : ℚ) * ratio + 1/2 := by
    unfold jsRound
    exact_mod_cast Int.floor_le _
  have hsrcltN : (i:ℚ) / ratio < (input.length : ℚ) := by
    rw [div_lt_iff₀ hratio]
    have h1 : (i:ℚ) ≤ (jsRound ((input.length : ℚ) * ratio) : ℚ) - 1 := by
      have h2 : (i : ℤ) + 1 ≤ jsRound ((input.length : ℚ) * ratio) :=
        Int.lt_iff_add_one_le.mp hiM
      have h3 : (i : ℚ) + 1 ≤ ((jsRound ((input.length : ℚ) * ratio) : ℤ) : ℚ) := by
        exact_mod_cast h2
      linarith
    linarith
  have hfloorltN : ⌊(i:ℚ) / ratio⌋ < (input.length : ℤ) :=
    Int.floor_lt.mpr (by exact_mod_cast hsrcltN)
  have hlo : (⌊(i:ℚ) / ratio⌋).toNat < input.length := by omega
  have hmin : (min (⌊(i:ℚ) / ratio⌋ + 1) ((input.length : ℤ) - 1)).toNat
      = min ((⌊(i:ℚ) / ratio⌋).toNat + 1) (input.length - 1) := by omega
  have hformula : resampledSample input ratio i
      = input.getD (⌊(i : ℚ) / ratio⌋).toNat 0
          * (1 - ((i : ℚ) / ratio - ⌊(i : ℚ) / ratio⌋))
        + input.getD (min ((⌊(i : ℚ) / ratio⌋).toNat + 1) (input.length - 1)) 0
          * ((i : ℚ) / ratio - ⌊(i : ℚ) / ratio⌋) := by
    simp only [resampledSample]
    rw [hmin]
  have hbytes := flatten_pairs_getD (resample input ratio) i (by simpa [resample] using hi)
  rw [resample_getD input ratio i hi] at hbytes
  exact ⟨hlo, hformula, pcm16OfSample_lower _, pcm16OfSample_upper _,
    hbytes.1, hbytes.2⟩

/-- Witness for C1: a three-sample buffer at 48 kHz yields round(3·1/2) = 2
output samples, hence 4 bytes. -/
theorem encode_resample_spec_witness :
    (0:ℚ) < 48000
    ∧ (encode [1/2, -1/2, 1/4] 48000).length = 4
    ∧ targetLength 3 (TARGET_SAMPLE_RATE / 48000) = 2 := by
  have h := (encode_resample_spec [1/2, -1/2, 1/4] 48000 (by norm_num)).1
  have ht : targetLength (3:ℕ) (TARGET_SAMPLE_RATE / 48000) = 2 := by
    norm_num [targetLength, jsRound, TARGET_SAMPLE_RATE]
    decide
  refine ⟨by norm_num, ?_, ht⟩
  simpa [ht] using h

end RADStrat
